import Mathlib

/-!
# GRWM — verification of the Session Pipeline Orchestrator specification

This development shallowly embeds the orchestration-relevant code of the
GRWM repository (a GitHub-profile README generator) and proves the spec's
claims about it.

Two kinds of definitions appear below:

* Frontend code translated directly from the TypeScript sources
  (`src/frontend/app/components/UsernameInput.tsx` and the
  `GenerationFlow` variant `src/unnamed/part_002`): username extraction
  and validation, the submit gate, and the client-side cleanup guard.
  Strings are embedded as `List Char` so that structural recursion and
  induction are available; `String` wrappers are provided.

* The backend Session Pipeline Orchestrator (session state machine,
  event log, broadcaster, supervisor).  The backend sources are not part
  of the reviewed material (only their frontend callers are), so these
  definitions are modelled from the specification text, as marked in
  their doc comments.
-/

namespace GRWM

/-! ## Characters and strings (frontend embedding helpers) -/

/-- A character admitted by the regex class used throughout
`UsernameInput.tsx`: ASCII letters, digits and hyphens
(the class written there as a range over letters, digits and the hyphen). -/
def isAllowedChar (c : Char) : Bool :=
  ('a' ≤ c && c ≤ 'z') || ('A' ≤ c && c ≤ 'Z') || ('0' ≤ c && c ≤ '9') || c = '-'

/-- JavaScript whitespace, as removed by `String.prototype.trim`: the
ECMA-262 WhiteSpace characters (tab, vertical tab, form feed, space,
no-break space, zero-width no-break space and every Unicode
Space_Separator code point) together with the LineTerminator characters
(line feed, carriage return, line separator, paragraph separator). -/
def isJsWhitespace (c : Char) : Bool :=
  c = ' ' || c = '\t' || c = '\n' || c = '\r' || c = '\x0b' || c = '\x0c' ||
  c = '\u00A0' || c = '\u1680' || ('\u2000' ≤ c && c ≤ '\u200A') ||
  c = '\u2028' || c = '\u2029' || c = '\u202F' || c = '\u205F' ||
  c = '\u3000' || c = '\uFEFF'

/-- `input.trim()`: drop leading and trailing whitespace. -/
def trimL (l : List Char) : List Char :=
  ((l.dropWhile isJsWhitespace).reverse.dropWhile isJsWhitespace).reverse

/-- ASCII lower-casing of one character, the folding performed by the `i`
flag on the ASCII-only patterns of `extractUsername`. -/
def lowerChar (c : Char) : Char :=
  if 'A' ≤ c && c ≤ 'Z' then Char.ofNat (c.toNat + 32) else c

/-- Case-insensitive anchored match of the fixed pattern head `pat`
(given lower-case) against the start of `l`. -/
def startsWithCI (pat l : List Char) : Bool :=
  decide ((l.take pat.length).map lowerChar = pat)

/-- The capture group of the URL patterns in `extractUsername`: the longest
run of allowed characters directly after the matched pattern head. -/
def firstSegAfter (pat l : List Char) : List Char :=
  (l.drop pat.length).takeWhile isAllowedChar

/-- One anchored URL pattern of `extractUsername`: `input.match(pattern)`
yields the capture group when the head matches and the group (a `+` over
the allowed class) is non-empty, and `null` otherwise. -/
def matchGithub (pat l : List Char) : Option (List Char) :=
  if startsWithCI pat l then
    if firstSegAfter pat l = [] then none else some (firstSegAfter pat l)
  else none

/-- Head of the first URL pattern with the optional `s` present. -/
def patHttps : List Char := "https://github.com/".data

/-- Head of the first URL pattern with the optional `s` absent. -/
def patHttp : List Char := "http://github.com/".data

/-- Head of the second URL pattern. -/
def patGh : List Char := "github.com/".data

/-- Head of the third URL pattern. -/
def patWww : List Char := "www.github.com/".data

/-- The pattern heads of `extractUsername`, in the order they are tried. -/
def ghUrlPats : List (List Char) := [patHttps, patHttp, patGh, patWww]

/-- `extractUsername` from `UsernameInput.tsx`: trim the input, try the
three URL patterns in order (the first one covering both `http` and
`https`), return the capture group of the first match, and otherwise the
trimmed input unchanged. -/
def extractUsernameL (input : List Char) : List Char :=
  let t := trimL input
  match matchGithub patHttps t with
  | some seg => seg
  | none =>
    match matchGithub patHttp t with
    | some seg => seg
    | none =>
      match matchGithub patGh t with
      | some seg => seg
      | none =>
        match matchGithub patWww t with
        | some seg => seg
        | none => t

/-- `extractUsername` on `String`. -/
def extractUsername (s : String) : String := String.mk (extractUsernameL s.data)

/-- `validateUsername` from `UsernameInput.tsx`, returning the error
message it reports, if any: a space anywhere is rejected first; then a
non-empty input failing the allowed-character regex is rejected; anything
else (including the empty input) passes. -/
def validateUsernameErr (input : List Char) : Option String :=
  if input.contains ' ' then some "Username cannot contain spaces"
  else if !input.isEmpty && !(!input.isEmpty && input.all isAllowedChar) then
    some "Username can only contain letters, numbers, and hyphens"
  else none

/-- Boolean form of `validateUsername`. -/
def validateUsername (input : List Char) : Bool :=
  (validateUsernameErr input).isNone

/-- Error raised by the submit gate; per the spec's taxonomy this surfaces
as `InvalidInput` and no session is created. -/
inductive SubmitErr where
  | invalidInput (msg : String)
deriving DecidableEq

/-- `handleSubmit` from `UsernameInput.tsx`: trim the username; reject an
empty value; run `validateUsername`; only on success invoke `onStart`
with the trimmed username (which begins session creation).  The `ok`
value is the username handed to `onStart`. -/
def handleSubmitL (username : List Char) : Except SubmitErr (List Char) :=
  let t := trimL username
  if t.isEmpty then .error (.invalidInput "Please enter a username")
  else
    match validateUsernameErr t with
    | some m => .error (.invalidInput m)
    | none => .ok t

/-- `handleSubmit` on `String`. -/
def handleSubmit (s : String) : Except SubmitErr (List Char) :=
  handleSubmitL s.data

/-! ## Client-side cleanup (from the `GenerationFlow` variant part_002) -/

/-- The client state touched by `cleanupConnection`: the `cleanupCalledRef`
guard, the session id held in state, whether the `EventSource` ref is
non-null, and the list of cleanup POSTs issued to the server. -/
structure ClientState where
  cleanupCalled : Bool
  sessionId : String
  eventSourceOpen : Bool
  cleanupRequests : List String
deriving DecidableEq

/-- `cleanupConnection` from part_002: return at once when the guard is
already set; otherwise set the guard, and when a session id and an open
`EventSource` are present, close the source and POST one cleanup
notification for the session id.  Fetch failures are caught and logged,
so the function never surfaces an error. -/
def cleanupConnection (st : ClientState) : ClientState :=
  if st.cleanupCalled then st
  else
    let st1 : ClientState := { st with cleanupCalled := true }
    if st1.sessionId ≠ "" && st1.eventSourceOpen then
      { st1 with
        eventSourceOpen := false
        cleanupRequests := st1.cleanupRequests ++ [st1.sessionId] }
    else st1

/-! ## The Session Pipeline Orchestrator

The backend implementing the orchestrator is not among the reviewed
sources; only its frontend callers are.  Every definition in this section
is therefore modelled from the specification text (sections 3 to 5), as
stated in its doc comment. -/

/-- Modelled from the spec: the three sequential stages (section 4.5);
the backend stage executors are absent from the sources. -/
inductive StageName where
  | detective
  | cto
  | ghostwriter
deriving DecidableEq

/-- Modelled from the spec: the state-machine states of section 4.2;
the backend state machine is absent from the sources. -/
inductive Stage where
  | initSt
  | detectiveRunning
  | detectiveDone
  | ctoRunning
  | ctoDone
  | awaitingStyle
  | ghostwriterRunning
  | doneSt
  | errorSt
  | timeoutSt
deriving DecidableEq

/-- Modelled from the spec: `DONE`, `ERROR`, `TIMEOUT` are the terminal
states (section 4.2). -/
def Stage.isTerminal : Stage → Bool
  | .doneSt => true
  | .errorSt => true
  | .timeoutSt => true
  | _ => false

/-- Modelled from the spec: the closed set of event kinds (section 3);
the backend event type is absent from the sources. -/
inductive EventKind where
  | stageStarted
  | stageProgress
  | stageCompleted
  | awaitingInput
  | errorEv
  | timeoutEv
  | sessionDone
deriving DecidableEq

/-- Modelled from the spec: an Event of the append-only per-session log
(section 3): kind, optional stage name, message, optional payload,
sequence number assigned at append time, and timestamp. -/
structure Event where
  kind : EventKind
  stageName : Option StageName
  message : String
  payload : Option String
  sequenceNumber : Nat
  timestamp : Nat
deriving DecidableEq

/-- The sequence number of an event. -/
def seqOf (e : Event) : Nat := e.sequenceNumber

/-- Modelled from the spec: the user's style selection with its optional
free-text description (sections 3 and 6). -/
structure Prefs where
  style : String
  description : String
deriving DecidableEq

/-- Modelled from the spec: the accumulator of typed stage outputs
(section 3); payloads are kept opaque as strings. -/
structure Results where
  profile : Option String
  analysis : Option String
  document : Option String
deriving DecidableEq

/-- Modelled from the spec: the Session aggregate (section 3); the
backend session store is absent from the sources. -/
structure Session where
  id : String
  subject : String
  preferences : Option Prefs
  stage : Stage
  results : Results
  eventLog : List Event
  createdAt : Nat
  lastActivityAt : Nat
  deadline : Nat
deriving DecidableEq

/-- Modelled from the spec: the short base deadline, on the order of a
minute (section 4.4), in milliseconds. -/
def baseDeadlineMs : Nat := 60000

/-- Modelled from the spec: the extended deadline of several minutes
granted when the pause is resolved (section 4.4); the frontend logs the
extension as five minutes. -/
def extendedDeadlineMs : Nat := 300000

/-- Modelled from the spec: appending an Event assigns the next sequence
number, one past the current log length, so numbering starts at 1
(sections 3 and 8). -/
def appendEvent (now : Nat) (s : Session) (k : EventKind) (st : Option StageName)
    (msg : String) (pl : Option String) : Session :=
  { s with
    eventLog := s.eventLog ++
      [{ kind := k, stageName := st, message := msg, payload := pl,
         sequenceNumber := s.eventLog.length + 1, timestamp := now }] }

/-- Modelled from the spec: a freshly created Session — empty preferences,
empty results, empty log, base deadline (sections 3 and 4.1). -/
def initialSession (now : Nat) (id subject : String) : Session :=
  { id := id
    subject := subject
    preferences := none
    stage := .initSt
    results := { profile := none, analysis := none, document := none }
    eventLog := []
    createdAt := now
    lastActivityAt := now
    deadline := now + baseDeadlineMs }

/-- Modelled from the spec: the typed errors surfaced synchronously by the
orchestrator's inbound actions (section 7). -/
inductive OrchErr where
  | invalidState
  | alreadySelected
  | notFound
  | notReady
deriving DecidableEq

/-- Modelled from the spec: the inbound occurrences that drive one
Session's state machine (sections 4.2 to 4.4): the initial kick-off, stage
executor progress, success and failure outcomes, the style selection, and
a Supervisor cancellation trigger. -/
inductive Action where
  | startRun
  | stageProgressA (msg : String)
  | detectiveOk (payload : String)
  | ctoStart
  | ctoOk (payload : String)
  | toAwaitingStyle
  | selectA (p : Prefs)
  | ghostwriterOk (payload : String)
  | stageFailA (msg : String)
  | cancelA (reason : String)
deriving DecidableEq

/-- The stage executor currently running, if any. -/
def runningStage : Stage → Option StageName
  | .detectiveRunning => some .detective
  | .ctoRunning => some .cto
  | .ghostwriterRunning => some .ghostwriter
  | _ => none

/-- Modelled from the spec: the transition function of the Pipeline State
Machine (sections 4.2, 4.4 and 5).  Every mutation of `stage` or
`results` appends exactly one Event; a stage failure appends one `error`
Event and moves to `ERROR`; a Supervisor trigger appends one `timeout`
Event and moves to `TIMEOUT`; the style selection is accepted only in
`AWAITING_STYLE`, writes the preferences exactly once, extends the
deadline and starts the third stage; in a terminal state every action is
refused. -/
def applyAction (now : Nat) (s : Session) : Action → Except OrchErr Session
  | .startRun =>
    if s.stage = .initSt then
      .ok (appendEvent now { s with stage := .detectiveRunning }
        .stageStarted (some .detective) "stage started" none)
    else .error .invalidState
  | .stageProgressA msg =>
    match runningStage s.stage with
    | some st => .ok (appendEvent now s .stageProgress (some st) msg none)
    | none => .error .invalidState
  | .detectiveOk payload =>
    if s.stage = .detectiveRunning then
      .ok (appendEvent now
        { s with stage := .detectiveDone
                 results := { s.results with profile := some payload } }
        .stageCompleted (some .detective) "stage completed" (some payload))
    else .error .invalidState
  | .ctoStart =>
    if s.stage = .detectiveDone then
      .ok (appendEvent now { s with stage := .ctoRunning }
        .stageStarted (some .cto) "stage started" none)
    else .error .invalidState
  | .ctoOk payload =>
    if s.stage = .ctoRunning then
      .ok (appendEvent now
        { s with stage := .ctoDone
                 results := { s.results with analysis := some payload } }
        .stageCompleted (some .cto) "stage completed" (some payload))
    else .error .invalidState
  | .toAwaitingStyle =>
    if s.stage = .ctoDone then
      .ok (appendEvent now { s with stage := .awaitingStyle }
        .awaitingInput none "awaiting style selection" none)
    else .error .invalidState
  | .selectA p =>
    if s.preferences.isSome then .error .alreadySelected
    else if s.stage ≠ .awaitingStyle then .error .invalidState
    else
      .ok (appendEvent now
        { s with preferences := some p
                 stage := .ghostwriterRunning
                 deadline := now + extendedDeadlineMs
                 lastActivityAt := now }
        .stageStarted (some .ghostwriter) "stage started" none)
  | .ghostwriterOk payload =>
    if s.stage = .ghostwriterRunning then
      .ok (appendEvent now
        (appendEvent now
          { s with stage := .doneSt
                   results := { s.results with document := some payload } }
          .stageCompleted (some .ghostwriter) "stage completed" (some payload))
        .sessionDone none "session done" none)
    else .error .invalidState
  | .stageFailA msg =>
    match runningStage s.stage with
    | some st =>
      .ok (appendEvent now { s with stage := .errorSt } .errorEv (some st) msg none)
    | none => .error .invalidState
  | .cancelA reason =>
    if s.stage.isTerminal then .error .invalidState
    else .ok (appendEvent now { s with stage := .timeoutSt } .timeoutEv none reason none)

/-- Modelled from the spec: the style-selection endpoint (sections 4.2 and
6) as seen by the registry — on a typed error the stored Session is left
untouched. -/
def handleSelect (now : Nat) (s : Session) (p : Prefs) : Option OrchErr × Session :=
  match applyAction now s (.selectA p) with
  | .ok s' => (none, s')
  | .error e => (some e, s)

/-- Modelled from the spec: the Supervisor's cancellation of one Session
(section 4.4) — a no-op on an already-terminal Session, otherwise one
`timeout` Event and the transition to `TIMEOUT`. -/
def cancelSession (now : Nat) (reason : String) (s : Session) : Session :=
  if s.stage.isTerminal then s
  else appendEvent now { s with stage := .timeoutSt } .timeoutEv none reason none

/-- One step of one Session's driving task: some inbound occurrence is
accepted at some time. -/
def SessionStep (s s' : Session) : Prop :=
  ∃ now a, applyAction now s a = .ok s'

/-- Zero or more steps. -/
def Reaches (s s' : Session) : Prop :=
  Relation.ReflTransGen SessionStep s s'

/-- A Session state arising from a freshly created Session. -/
def ReachableSession (s : Session) : Prop :=
  ∃ now id subject, Reaches (initialSession now id subject) s

/-- Modelled from the spec: what the single subscriber observes when it
attaches at Session state `attach` and the Session then evolves to
`final` (section 4.3): the full backlog held at attach time, then the
live events published afterwards. -/
def observedEvents (attach final : Session) : List Event :=
  attach.eventLog ++ final.eventLog.drop attach.eventLog.length

/-- Modelled from the spec: a message on the subscriber's stream — an
Event, or the end-of-stream signal (section 4.3). -/
inductive StreamItem where
  | ev (e : Event)
  | endOfStream
deriving DecidableEq

/-- Modelled from the spec: the full stream delivered to the subscriber —
the observed events, followed by end-of-stream once the Session is
terminal (section 4.3). -/
def streamItems (attach final : Session) : List StreamItem :=
  (observedEvents attach final).map .ev ++
    (if final.stage.isTerminal then [.endOfStream] else [])

/-! ## Invariants of the orchestrator model -/

/-- The event log carries the sequence numbers `1, 2, …, length`. -/
def SeqOk (s : Session) : Prop :=
  s.eventLog.map seqOf = List.range' 1 s.eventLog.length

lemma appendEvent_eventLog (now : Nat) (s : Session) (k : EventKind)
    (st : Option StageName) (msg : String) (pl : Option String) :
    (appendEvent now s k st msg pl).eventLog =
      s.eventLog ++
        [{ kind := k, stageName := st, message := msg, payload := pl,
           sequenceNumber := s.eventLog.length + 1, timestamp := now }] := rfl

lemma seqOk_append {s : Session} (hs : SeqOk s) (now : Nat) (k : EventKind)
    (st : Option StageName) (msg : String) (pl : Option String) :
    SeqOk (appendEvent now s k st msg pl) := by
  unfold SeqOk at hs ⊢
  rw [appendEvent_eventLog]
  simp only [List.map_append, List.length_append, List.map_cons, List.map_nil,
    List.length_cons, List.length_nil, seqOf, hs]
  rw [Nat.zero_add, List.range'_1_concat]
  simp [Nat.add_comm]

lemma applyAction_seqOk {now : Nat} {s : Session} {a : Action} {s' : Session}
    (h : applyAction now s a = .ok s') (hs : SeqOk s) : SeqOk s' := by
  cases a <;> simp only [applyAction] at h
  case startRun =>
    by_cases hc : s.stage = .initSt <;> simp [hc] at h
    exact h ▸ seqOk_append hs now _ _ _ _
  case stageProgressA msg =>
    rcases hr : runningStage s.stage with _ | st <;> simp [hr] at h
    exact h ▸ seqOk_append hs now _ _ _ _
  case detectiveOk payload =>
    by_cases hc : s.stage = .detectiveRunning <;> simp [hc] at h
    exact h ▸ seqOk_append hs now _ _ _ _
  case ctoStart =>
    by_cases hc : s.stage = .detectiveDone <;> simp [hc] at h
    exact h ▸ seqOk_append hs now _ _ _ _
  case ctoOk payload =>
    by_cases hc : s.stage = .ctoRunning <;> simp [hc] at h
    exact h ▸ seqOk_append hs now _ _ _ _
  case toAwaitingStyle =>
    by_cases hc : s.stage = .ctoDone <;> simp [hc] at h
    exact h ▸ seqOk_append hs now _ _ _ _
  case selectA p =>
    by_cases hp : s.preferences.isSome <;> simp [hp] at h
    by_cases hc : s.stage = .awaitingStyle <;> simp [hc] at h
    exact h ▸ seqOk_append hs now _ _ _ _
  case ghostwriterOk payload =>
    by_cases hc : s.stage = .ghostwriterRunning <;> simp [hc] at h
    exact h ▸ seqOk_append (seqOk_append hs now _ _ _ _) now _ _ _ _
  case stageFailA msg =>
    rcases hr : runningStage s.stage with _ | st <;> simp [hr] at h
    exact h ▸ seqOk_append hs now _ _ _ _
  case cancelA reason =>
    by_cases hc : s.stage.isTerminal <;> simp [hc] at h
    exact h ▸ seqOk_append hs now _ _ _ _

lemma applyAction_log_extend {now : Nat} {s : Session} {a : Action} {s' : Session}
    (h : applyAction now s a = .ok s') :
    ∃ t, s'.eventLog = s.eventLog ++ t := by
  cases a <;> simp only [applyAction] at h
  case startRun =>
    by_cases hc : s.stage = .initSt <;> simp [hc] at h
    exact ⟨_, by rw [← h, appendEvent_eventLog]⟩
  case stageProgressA msg =>
    rcases hr : runningStage s.stage with _ | st <;> simp [hr] at h
    exact ⟨_, by rw [← h, appendEvent_eventLog]⟩
  case detectiveOk payload =>
    by_cases hc : s.stage = .detectiveRunning <;> simp [hc] at h
    exact ⟨_, by rw [← h, appendEvent_eventLog]⟩
  case ctoStart =>
    by_cases hc : s.stage = .detectiveDone <;> simp [hc] at h
    exact ⟨_, by rw [← h, appendEvent_eventLog]⟩
  case ctoOk payload =>
    by_cases hc : s.stage = .ctoRunning <;> simp [hc] at h
    exact ⟨_, by rw [← h, appendEvent_eventLog]⟩
  case toAwaitingStyle =>
    by_cases hc : s.stage = .ctoDone <;> simp [hc] at h
    exact ⟨_, by rw [← h, appendEvent_eventLog]⟩
  case selectA p =>
    by_cases hp : s.preferences.isSome <;> simp [hp] at h
    by_cases hc : s.stage = .awaitingStyle <;> simp [hc] at h
    exact ⟨_, by rw [← h, appendEvent_eventLog]⟩
  case ghostwriterOk payload =>
    by_cases hc : s.stage = .ghostwriterRunning <;> simp [hc] at h
    subst h
    rw [appendEvent_eventLog, appendEvent_eventLog, List.append_assoc]
    exact ⟨_, rfl⟩
  case stageFailA msg =>
    rcases hr : runningStage s.stage with _ | st <;> simp [hr] at h
    exact ⟨_, by rw [← h, appendEvent_eventLog]⟩
  case cancelA reason =>
    by_cases hc : s.stage.isTerminal <;> simp [hc] at h
    exact ⟨_, by rw [← h, appendEvent_eventLog]⟩

lemma reaches_log_extend {s s' : Session} (h : Reaches s s') :
    ∃ t, s'.eventLog = s.eventLog ++ t := by
  induction h with
  | refl => exact ⟨[], by simp⟩
  | tail _ hbc ih =>
    obtain ⟨t1, ht1⟩ := ih
    obtain ⟨now, a, ha⟩ := hbc
    obtain ⟨t2, ht2⟩ := applyAction_log_extend ha
    exact ⟨t1 ++ t2, by rw [ht2, ht1, List.append_assoc]⟩

lemma reaches_seqOk {s s' : Session} (h : Reaches s s') (hs : SeqOk s) : SeqOk s' := by
  induction h with
  | refl => exact hs
  | tail _ hbc ih =>
    obtain ⟨now, a, ha⟩ := hbc
    exact applyAction_seqOk ha ih

lemma reachable_seqOk {s : Session} (h : ReachableSession s) : SeqOk s := by
  obtain ⟨now, id, subject, hr⟩ := h
  exact reaches_seqOk hr (by simp [SeqOk, initialSession])

/-- Preferences are set only with the third stage under way or the Session
terminal; in particular they are still unset at `AWAITING_STYLE`. -/
def PrefsInv (s : Session) : Prop :=
  s.preferences = none ∨
    (s.stage = .ghostwriterRunning ∨ s.stage = .doneSt ∨
     s.stage = .errorSt ∨ s.stage = .timeoutSt)

lemma applyAction_prefsInv {now : Nat} {s : Session} {a : Action} {s' : Session}
    (h : applyAction now s a = .ok s') (hs : PrefsInv s) : PrefsInv s' := by
  cases a <;> simp only [applyAction] at h
  case startRun =>
    by_cases hc : s.stage = .initSt <;> simp [hc] at h
    rcases hs with hp | hst
    · left; rw [← h]; exact hp
    · rw [hc] at hst; simp at hst
  case stageProgressA msg =>
    rcases hr : runningStage s.stage with _ | st <;> simp [hr] at h
    rcases hs with hp | hst
    · left; rw [← h]; exact hp
    · right; rw [← h]; exact hst
  case detectiveOk payload =>
    by_cases hc : s.stage = .detectiveRunning <;> simp [hc] at h
    rcases hs with hp | hst
    · left; rw [← h]; exact hp
    · rw [hc] at hst; simp at hst
  case ctoStart =>
    by_cases hc : s.stage = .detectiveDone <;> simp [hc] at h
    rcases hs with hp | hst
    · left; rw [← h]; exact hp
    · rw [hc] at hst; simp at hst
  case ctoOk payload =>
    by_cases hc : s.stage = .ctoRunning <;> simp [hc] at h
    rcases hs with hp | hst
    · left; rw [← h]; exact hp
    · rw [hc] at hst; simp at hst
  case toAwaitingStyle =>
    by_cases hc : s.stage = .ctoDone <;> simp [hc] at h
    rcases hs with hp | hst
    · left; rw [← h]; exact hp
    · rw [hc] at hst; simp at hst
  case selectA p =>
    by_cases hp : s.preferences.isSome <;> simp [hp] at h
    by_cases hc : s.stage = .awaitingStyle <;> simp [hc] at h
    right; rw [← h]; left; rfl
  case ghostwriterOk payload =>
    by_cases hc : s.stage = .ghostwriterRunning <;> simp [hc] at h
    right; rw [← h]; right; left; rfl
  case stageFailA msg =>
    rcases hr : runningStage s.stage with _ | st <;> simp [hr] at h
    right; rw [← h]; right; right; left; rfl
  case cancelA reason =>
    by_cases hc : s.stage.isTerminal <;> simp [hc] at h
    right; rw [← h]; right; right; right; rfl

lemma reachable_prefsInv {s : Session} (h : ReachableSession s) : PrefsInv s := by
  obtain ⟨now, id, subject, hr⟩ := h
  have base : PrefsInv (initialSession now id subject) := by
    left; rfl
  induction hr with
  | refl => exact base
  | tail _ hbc ih =>
    obtain ⟨now2, a, ha⟩ := hbc
    exact applyAction_prefsInv ha ih

lemma reachable_awaiting_prefs {s : Session} (h : ReachableSession s)
    (hst : s.stage = .awaitingStyle) : s.preferences = none := by
  rcases reachable_prefsInv h with hp | hcase
  · exact hp
  · rw [hst] at hcase; simp at hcase

lemma applyAction_prefs_mono {now : Nat} {s : Session} {a : Action} {s' : Session}
    (h : applyAction now s a = .ok s') (hp : s.preferences.isSome) :
    s'.preferences = s.preferences := by
  cases a <;> simp only [applyAction] at h
  case startRun =>
    by_cases hc : s.stage = .initSt <;> simp [hc] at h
    rw [← h]; rfl
  case stageProgressA msg =>
    rcases hr : runningStage s.stage with _ | st <;> simp [hr] at h
    rw [← h]; rfl
  case detectiveOk payload =>
    by_cases hc : s.stage = .detectiveRunning <;> simp [hc] at h
    rw [← h]; rfl
  case ctoStart =>
    by_cases hc : s.stage = .detectiveDone <;> simp [hc] at h
    rw [← h]; rfl
  case ctoOk payload =>
    by_cases hc : s.stage = .ctoRunning <;> simp [hc] at h
    rw [← h]; rfl
  case toAwaitingStyle =>
    by_cases hc : s.stage = .ctoDone <;> simp [hc] at h
    rw [← h]; rfl
  case selectA p =>
    simp [hp] at h
  case ghostwriterOk payload =>
    by_cases hc : s.stage = .ghostwriterRunning <;> simp [hc] at h
    rw [← h]; rfl
  case stageFailA msg =>
    rcases hr : runningStage s.stage with _ | st <;> simp [hr] at h
    rw [← h]; rfl
  case cancelA reason =>
    by_cases hc : s.stage.isTerminal <;> simp [hc] at h
    rw [← h]; rfl

lemma applyAction_deadline {now : Nat} {s : Session} {a : Action} {s' : Session}
    (h : applyAction now s a = .ok s') (hd : s'.deadline ≠ s.deadline) :
    (∃ p, a = .selectA p) ∧ s.stage = .awaitingStyle ∧ s.preferences = none ∧
      s'.deadline = now + extendedDeadlineMs := by
  cases a <;> simp only [applyAction] at h
  case startRun =>
    by_cases hc : s.stage = .initSt <;> simp [hc] at h
    exact absurd (by rw [← h]; rfl) hd
  case stageProgressA msg =>
    rcases hr : runningStage s.stage with _ | st <;> simp [hr] at h
    exact absurd (by rw [← h]; rfl) hd
  case detectiveOk payload =>
    by_cases hc : s.stage = .detectiveRunning <;> simp [hc] at h
    exact absurd (by rw [← h]; rfl) hd
  case ctoStart =>
    by_cases hc : s.stage = .detectiveDone <;> simp [hc] at h
    exact absurd (by rw [← h]; rfl) hd
  case ctoOk payload =>
    by_cases hc : s.stage = .ctoRunning <;> simp [hc] at h
    exact absurd (by rw [← h]; rfl) hd
  case toAwaitingStyle =>
    by_cases hc : s.stage = .ctoDone <;> simp [hc] at h
    exact absurd (by rw [← h]; rfl) hd
  case selectA p =>
    by_cases hp : s.preferences.isSome <;> simp [hp] at h
    by_cases hc : s.stage = .awaitingStyle <;> simp [hc] at h
    refine ⟨⟨p, rfl⟩, hc, ?_, by rw [← h]; rfl⟩
    cases hps : s.preferences with
    | none => rfl
    | some v => rw [hps] at hp; simp at hp
  case ghostwriterOk payload =>
    by_cases hc : s.stage = .ghostwriterRunning <;> simp [hc] at h
    exact absurd (by rw [← h]; rfl) hd
  case stageFailA msg =>
    rcases hr : runningStage s.stage with _ | st <;> simp [hr] at h
    exact absurd (by rw [← h]; rfl) hd
  case cancelA reason =>
    by_cases hc : s.stage.isTerminal <;> simp [hc] at h
    exact absurd (by rw [← h]; rfl) hd

lemma terminal_refuses {s : Session} (ht : s.stage.isTerminal = true)
    (now : Nat) (a : Action) (s' : Session) : applyAction now s a ≠ .ok s' := by
  have hne1 : s.stage ≠ .initSt := by intro hc; rw [hc] at ht; simp [Stage.isTerminal] at ht
  have hne2 : s.stage ≠ .detectiveRunning := by
    intro hc; rw [hc] at ht; simp [Stage.isTerminal] at ht
  have hne3 : s.stage ≠ .detectiveDone := by
    intro hc; rw [hc] at ht; simp [Stage.isTerminal] at ht
  have hne4 : s.stage ≠ .ctoRunning := by
    intro hc; rw [hc] at ht; simp [Stage.isTerminal] at ht
  have hne5 : s.stage ≠ .ctoDone := by
    intro hc; rw [hc] at ht; simp [Stage.isTerminal] at ht
  have hne6 : s.stage ≠ .awaitingStyle := by
    intro hc; rw [hc] at ht; simp [Stage.isTerminal] at ht
  have hne7 : s.stage ≠ .ghostwriterRunning := by
    intro hc; rw [hc] at ht; simp [Stage.isTerminal] at ht
  have hrun : runningStage s.stage = none := by
    cases hst : s.stage <;> simp [runningStage] <;>
      first
      | exact absurd hst hne2
      | exact absurd hst hne4
      | exact absurd hst hne7
  cases a <;> simp only [applyAction]
  case startRun => simp [hne1]
  case stageProgressA msg => simp [hrun]
  case detectiveOk payload => simp [hne2]
  case ctoStart => simp [hne3]
  case ctoOk payload => simp [hne4]
  case toAwaitingStyle => simp [hne5]
  case selectA p =>
    by_cases hp : s.preferences.isSome <;> simp [hp, hne6]
  case ghostwriterOk payload => simp [hne7]
  case stageFailA msg => simp [hrun]
  case cancelA reason => simp [ht]

lemma terminal_no_step {s : Session} (ht : s.stage.isTerminal = true) :
    ∀ s', ¬ SessionStep s s' := by
  rintro s' ⟨now, a, ha⟩
  exact terminal_refuses ht now a s' ha

lemma range'_take (s k n : Nat) :
    (List.range' s n).take k = List.range' s (min k n) := by
  induction n generalizing s k with
  | zero => simp
  | succ n ih =>
    cases k with
    | zero => simp
    | succ k =>
      rw [List.range'_succ, Nat.succ_min_succ, List.range'_succ]
      simp [ih]

/-! ## A sample execution (scenario A of the spec), used as witness data -/

/-- Apply an action at time 0, keeping the state on refusal. -/
def nextOk (a : Action) (s : Session) : Session :=
  match applyAction 0 s a with
  | .ok s' => s'
  | .error _ => s

/-- The style choice of scenario A. -/
def sessPrefs : Prefs := { style := "minimal", description := "" }

/-- A freshly created Session for subject octocat. -/
def sess0 : Session := initialSession 0 "sid" "octocat"

/-- After kick-off: first stage running. -/
def sess1 : Session := nextOk .startRun sess0

/-- After the first stage succeeded. -/
def sess2 : Session := nextOk (.detectiveOk "profile") sess1

/-- After the second stage started. -/
def sess3 : Session := nextOk .ctoStart sess2

/-- After the second stage succeeded. -/
def sess4 : Session := nextOk (.ctoOk "analysis") sess3

/-- Paused for the style selection. -/
def sess5 : Session := nextOk .toAwaitingStyle sess4

/-- After the style selection: third stage running. -/
def sess6 : Session := nextOk (.selectA sessPrefs) sess5

/-- Completed. -/
def sess7 : Session := nextOk (.ghostwriterOk "readme") sess6

lemma ok01 : applyAction 0 sess0 .startRun = .ok sess1 := rfl

lemma ok12 : applyAction 0 sess1 (.detectiveOk "profile") = .ok sess2 := rfl

lemma ok23 : applyAction 0 sess2 .ctoStart = .ok sess3 := rfl

lemma ok34 : applyAction 0 sess3 (.ctoOk "analysis") = .ok sess4 := rfl

lemma ok45 : applyAction 0 sess4 .toAwaitingStyle = .ok sess5 := rfl

lemma ok56 : applyAction 0 sess5 (.selectA sessPrefs) = .ok sess6 := rfl

lemma ok67 : applyAction 0 sess6 (.ghostwriterOk "readme") = .ok sess7 := rfl

lemma reach01 : Reaches sess0 sess1 :=
  Relation.ReflTransGen.single ⟨0, .startRun, ok01⟩

lemma reach02 : Reaches sess0 sess2 :=
  reach01.tail ⟨0, .detectiveOk "profile", ok12⟩

lemma reach03 : Reaches sess0 sess3 := reach02.tail ⟨0, .ctoStart, ok23⟩

lemma reach04 : Reaches sess0 sess4 := reach03.tail ⟨0, .ctoOk "analysis", ok34⟩

lemma reach05 : Reaches sess0 sess5 := reach04.tail ⟨0, .toAwaitingStyle, ok45⟩

lemma reach06 : Reaches sess0 sess6 := reach05.tail ⟨0, .selectA sessPrefs, ok56⟩

lemma reach07 : Reaches sess0 sess7 :=
  reach06.tail ⟨0, .ghostwriterOk "readme", ok67⟩

lemma reachable_sess1 : ReachableSession sess1 := ⟨0, "sid", "octocat", reach01⟩

lemma reachable_sess5 : ReachableSession sess5 := ⟨0, "sid", "octocat", reach05⟩

/-! ## The claims -/

/-- C1: for every Session, the event-log sequence numbers are gapless,
start at 1 and are strictly increasing (the log numbered `1, …, length`),
and the single subscriber observes events in exactly the order they were
appended: its observation is the log itself, and after observing any
number `k` of events it has observed exactly the events numbered
`1, …, k` — never a later event before all earlier-numbered ones. -/
theorem eventLog_gapless_ordered :
    ∀ s, ReachableSession s →
      s.eventLog.map seqOf = List.range' 1 s.eventLog.length ∧
      ∀ s', Reaches s s' →
        observedEvents s s' = s'.eventLog ∧
        ∀ k, ((observedEvents s s').take k).map seqOf =
          List.range' 1 (min k s'.eventLog.length) := by
  intro s hs
  refine ⟨reachable_seqOk hs, ?_⟩
  intro s' hr
  have hobs : observedEvents s s' = s'.eventLog := by
    obtain ⟨t, ht⟩ := reaches_log_extend hr
    rw [observedEvents, ht, List.drop_left]
  have hs' : ReachableSession s' := by
    obtain ⟨now, id, subject, h0⟩ := hs
    exact ⟨now, id, subject, h0.trans hr⟩
  refine ⟨hobs, ?_⟩
  intro k
  rw [hobs, List.map_take, reachable_seqOk hs', range'_take]

/-- Witness for C1 at a concrete execution. -/
theorem eventLog_gapless_ordered_witness :
    sess1.eventLog.map seqOf = List.range' 1 sess1.eventLog.length ∧
    observedEvents sess1 sess2 = sess2.eventLog := by
  have h := eventLog_gapless_ordered sess1 reachable_sess1
  exact ⟨h.1, (h.2 sess2 (Relation.ReflTransGen.single
    ⟨0, .detectiveOk "profile", ok12⟩)).1⟩

/-- C2: the style selection succeeds exactly once and only at
`AWAITING_STYLE`: there the first selection succeeds and writes the
preferences, and any later selection on the resulting Session fails with
`AlreadySelected` leaving the Session (hence its event log) untouched;
in any other state the selection fails — with `InvalidState` when no
selection has been made, with `AlreadySelected` when one has — and
leaves the stored Session, in particular its preferences, unchanged. -/
theorem styleSelection_exactly_once :
    ∀ s, ReachableSession s → ∀ now p,
      (s.stage = .awaitingStyle →
        (handleSelect now s p).1 = none ∧
        (handleSelect now s p).2.preferences = some p ∧
        ∀ now2 p2,
          handleSelect now2 (handleSelect now s p).2 p2 =
            (some .alreadySelected, (handleSelect now s p).2)) ∧
      (s.stage ≠ .awaitingStyle →
        (handleSelect now s p).2 = s ∧
        (s.preferences = none → (handleSelect now s p).1 = some .invalidState) ∧
        (s.preferences ≠ none → (handleSelect now s p).1 = some .alreadySelected)) := by
  intro s hs now p
  constructor
  · intro hst
    have hp : s.preferences = none := reachable_awaiting_prefs hs hst
    simp [handleSelect, applyAction, hp, hst, appendEvent]
  · intro hst
    cases hps : s.preferences with
    | none => simp [handleSelect, applyAction, hps, hst]
    | some v => simp [handleSelect, applyAction, hps]

/-- Witness for C2 at a concrete paused Session. -/
theorem styleSelection_exactly_once_witness :
    (handleSelect 0 sess5 sessPrefs).1 = none ∧
    (handleSelect 0 sess5 sessPrefs).2.preferences = some sessPrefs ∧
    handleSelect 1 (handleSelect 0 sess5 sessPrefs).2 { style := "bold", description := "x" } =
      (some .alreadySelected, (handleSelect 0 sess5 sessPrefs).2) := by
  have h := (styleSelection_exactly_once sess5 reachable_sess5 0 sessPrefs).1 (by rfl)
  exact ⟨h.1, h.2.1, h.2.2 1 { style := "bold", description := "x" }⟩

/-- C3: if the running Stage Executor fails, exactly one `error` Event
carrying the failure detail is appended, the Session moves to the
terminal `ERROR` state, and no further step exists for that Session — no
later stage is invoked and the failed stage is not retried. -/
theorem stageFailure_terminal :
    ∀ s, ReachableSession s → ∀ st, runningStage s.stage = some st → ∀ now msg,
      ∃ s', applyAction now s (.stageFailA msg) = .ok s' ∧
        s'.eventLog = s.eventLog ++
          [{ kind := .errorEv, stageName := some st, message := msg, payload := none,
             sequenceNumber := s.eventLog.length + 1, timestamp := now }] ∧
        s'.stage = .errorSt ∧
        ∀ s'', ¬ SessionStep s' s'' := by
  intro s _ st hrun now msg
  refine ⟨appendEvent now { s with stage := .errorSt } .errorEv (some st) msg none,
    ?_, rfl, rfl, terminal_no_step rfl⟩
  simp [applyAction, hrun]

/-- Witness for C3 at a concrete running Session. -/
theorem stageFailure_terminal_witness :
    ∃ s', applyAction 7 sess1 (.stageFailA "not found") = .ok s' ∧
      s'.eventLog = sess1.eventLog ++
        [{ kind := .errorEv, stageName := some .detective, message := "not found",
           payload := none, sequenceNumber := sess1.eventLog.length + 1, timestamp := 7 }] ∧
      s'.stage = .errorSt ∧
      ∀ s'', ¬ SessionStep s' s'' :=
  stageFailure_terminal sess1 reachable_sess1 .detective rfl 7 "not found"

/-- C4: a subscriber attaching at any point of a Session's evolution
observes the full log from sequence number 1 in order — the backlog held
at attach time is delivered first and unchanged, then the live events —
and once the Session is terminal the stream is the event list followed by
the end-of-stream signal. -/
theorem subscriber_backlog_replay :
    ∀ s s', ReachableSession s → Reaches s s' →
      observedEvents s s' = s'.eventLog ∧
      (observedEvents s s').take s.eventLog.length = s.eventLog ∧
      (observedEvents s s').map seqOf = List.range' 1 s'.eventLog.length ∧
      (s'.stage.isTerminal = true →
        streamItems s s' = s'.eventLog.map StreamItem.ev ++ [StreamItem.endOfStream]) := by
  intro s s' hs hr
  obtain ⟨t, ht⟩ := reaches_log_extend hr
  have hobs : observedEvents s s' = s'.eventLog := by
    rw [observedEvents, ht, List.drop_left]
  have hs' : ReachableSession s' := by
    obtain ⟨now, id, subject, h0⟩ := hs
    exact ⟨now, id, subject, h0.trans hr⟩
  refine ⟨hobs, ?_, ?_, ?_⟩
  · rw [hobs, ht, List.take_left]
  · rw [hobs, reachable_seqOk hs']
  · intro hterm
    simp [streamItems, hobs, hterm]

/-- Witness for C4: a subscriber attaching mid-run at a concrete Session. -/
theorem subscriber_backlog_replay_witness :
    observedEvents sess1 sess7 = sess7.eventLog ∧
    (observedEvents sess1 sess7).take sess1.eventLog.length = sess1.eventLog ∧
    (sess7.stage.isTerminal = true →
      streamItems sess1 sess7 = sess7.eventLog.map StreamItem.ev ++ [StreamItem.endOfStream]) := by
  have hr17 : Reaches sess1 sess7 :=
    Relation.ReflTransGen.single ⟨0, .detectiveOk "profile", ok12⟩
      |>.tail ⟨0, .ctoStart, ok23⟩ |>.tail ⟨0, .ctoOk "analysis", ok34⟩
      |>.tail ⟨0, .toAwaitingStyle, ok45⟩ |>.tail ⟨0, .selectA sessPrefs, ok56⟩
      |>.tail ⟨0, .ghostwriterOk "readme", ok67⟩
  have h := subscriber_backlog_replay sess1 sess7 reachable_sess1 hr17
  exact ⟨h.1, h.2.1, h.2.2.2⟩

/-- C5: cancelling a Session is idempotent across triggers: on a
non-terminal Session one trigger performs the single terminal transition
(to `TIMEOUT`) and appends exactly one terminal Event, and any second
trigger — in either interleaving, with any reason — is a no-op; a trigger
on an already-terminal Session changes nothing. -/
theorem cancellation_idempotent :
    ∀ s now1 now2 r1 r2,
      (s.stage.isTerminal = true → cancelSession now1 r1 s = s) ∧
      (s.stage.isTerminal = false →
        (cancelSession now1 r1 s).stage = .timeoutSt ∧
        (cancelSession now1 r1 s).stage.isTerminal = true ∧
        (cancelSession now1 r1 s).eventLog = s.eventLog ++
          [{ kind := .timeoutEv, stageName := none, message := r1, payload := none,
             sequenceNumber := s.eventLog.length + 1, timestamp := now1 }] ∧
        cancelSession now2 r2 (cancelSession now1 r1 s) = cancelSession now1 r1 s) := by
  intro s now1 now2 r1 r2
  constructor
  · intro ht
    simp [cancelSession, ht]
  · intro ht
    have h1 : cancelSession now1 r1 s =
        appendEvent now1 { s with stage := .timeoutSt } .timeoutEv none r1 none := by
      simp [cancelSession, ht]
    rw [h1]
    exact ⟨rfl, rfl, rfl, rfl⟩

/-- Witness for C5 at a concrete non-terminal Session. -/
theorem cancellation_idempotent_witness :
    (cancelSession 3 "deadline" sess5).stage = .timeoutSt ∧
    (cancelSession 3 "deadline" sess5).stage.isTerminal = true ∧
    (cancelSession 3 "deadline" sess5).eventLog = sess5.eventLog ++
      [{ kind := .timeoutEv, stageName := none, message := "deadline", payload := none,
         sequenceNumber := sess5.eventLog.length + 1, timestamp := 3 }] ∧
    cancelSession 4 "disconnect" (cancelSession 3 "deadline" sess5) =
      cancelSession 3 "deadline" sess5 :=
  (cancellation_idempotent sess5 3 4 "deadline" "disconnect").2 (by rfl)

lemma kind_mem_universe : ∀ k : EventKind,
    k ∈ ([.stageStarted, .stageProgress, .stageCompleted, .awaitingInput,
          .errorEv, .timeoutEv, .sessionDone] : List EventKind) := by
  intro k
  cases k <;> simp

/-- C6: every Event in a Session's log — hence every event a subscriber is
delivered — has its kind in the closed seven-element set; the embedded
kind type is exactly that closed set, so no other kind can be produced. -/
theorem eventKinds_closed :
    ∀ s, ReachableSession s → ∀ e ∈ s.eventLog,
      e.kind ∈ ([.stageStarted, .stageProgress, .stageCompleted, .awaitingInput,
                 .errorEv, .timeoutEv, .sessionDone] : List EventKind) := by
  intro s _ e _
  exact kind_mem_universe e.kind

/-- The one event of `sess1`. -/
def sampleEvent : Event :=
  { kind := .stageStarted, stageName := some .detective, message := "stage started",
    payload := none, sequenceNumber := 1, timestamp := 0 }

/-- Witness for C6 at a concrete event of a concrete Session. -/
theorem eventKinds_closed_witness :
    sampleEvent.kind ∈ ([.stageStarted, .stageProgress, .stageCompleted, .awaitingInput,
      .errorEv, .timeoutEv, .sessionDone] : List EventKind) :=
  eventKinds_closed sess1 reachable_sess1 sampleEvent (by decide)

/-- C7: the deadline starts at the short base duration, the extended
duration is strictly longer, the only accepted action that ever changes
the deadline is the style selection resolving the `AWAITING_STYLE` pause
for the first time (preferences still unset), which sets the extended
duration — and since every accepted action preserves already-set
preferences while a selection requires them unset, no second extension
can ever happen. -/
theorem deadline_extended_once :
    (∀ now id subject, (initialSession now id subject).deadline = now + baseDeadlineMs) ∧
    baseDeadlineMs < extendedDeadlineMs ∧
    (∀ now s a s', applyAction now s a = .ok s' → s'.deadline ≠ s.deadline →
      (∃ p, a = .selectA p) ∧ s.stage = .awaitingStyle ∧ s.preferences = none ∧
        s'.deadline = now + extendedDeadlineMs) ∧
    (∀ now s a s', applyAction now s a = .ok s' → s.preferences.isSome = true →
      s'.preferences = s.preferences) := by
  refine ⟨fun _ _ _ => rfl, by norm_num [baseDeadlineMs, extendedDeadlineMs], ?_, ?_⟩
  · intro now s a s' h hd
    exact applyAction_deadline h hd
  · intro now s a s' h hp
    exact applyAction_prefs_mono h hp

/-- Witness for C7: the concrete selection step extends the deadline, and
the subsequent completion step preserves the set preferences. -/
theorem deadline_extended_once_witness :
    ((∃ p, Action.selectA sessPrefs = Action.selectA p) ∧
      sess5.stage = .awaitingStyle ∧ sess5.preferences = none ∧
      sess6.deadline = 0 + extendedDeadlineMs) ∧
    sess7.preferences = sess6.preferences :=
  ⟨deadline_extended_once.2.2.1 0 sess5 (.selectA sessPrefs) sess6 ok56 (by decide),
   deadline_extended_once.2.2.2 0 sess6 (.ghostwriterOk "readme") sess7 ok67 (by rfl)⟩

/-- C8: the submit gate rejects — surfacing `InvalidInput` and never
invoking `onStart`, so no Session is created — exactly those subjects
that are empty or contain a character other than an ASCII letter, digit
or hyphen.  The subject is what the input handler stores, which is
already whitespace-trimmed, captured here by the hypothesis. -/
theorem submit_invalidInput_iff :
    ∀ s : String, trimL s.data = s.data →
      ((∃ m, handleSubmit s = .error (.invalidInput m)) ↔
        (s.data = [] ∨ ∃ c ∈ s.data, isAllowedChar c = false)) := by
  intro s htrim
  unfold handleSubmit handleSubmitL
  rw [htrim]
  cases he : s.data.isEmpty with
  | true =>
    have hd : s.data = [] := List.isEmpty_iff.mp he
    simp [he, hd]
  | false =>
    have hd : s.data ≠ [] := by
      intro hh
      rw [hh] at he
      simp at he
    cases hsp : s.data.contains ' ' with
    | true =>
      have hmem : ' ' ∈ s.data := List.elem_iff.mp hsp
      simp only [he, validateUsernameErr, hsp, if_true, if_false, Bool.false_eq_true,
        ite_false, ite_true]
      constructor
      · intro _
        exact Or.inr ⟨' ', hmem, by decide⟩
      · intro _
        exact ⟨"Username cannot contain spaces", rfl⟩
    | false =>
      have hnsp : ' ' ∉ s.data := by simpa using hsp
      cases hall : s.data.all isAllowedChar with
      | true =>
        have hok : validateUsernameErr s.data = none := by
          simp [validateUsernameErr, hsp, hnsp, he, hall]
        simp only [he, hok, Bool.false_eq_true, ite_false]
        constructor
        · rintro ⟨m, hm⟩
          simp at hm
        · rintro (h1 | ⟨c, hc, hcf⟩)
          · exact absurd h1 hd
          · have := List.all_eq_true.mp hall c hc
            rw [hcf] at this
            simp at this
      | false =>
        have hbad : validateUsernameErr s.data =
            some "Username can only contain letters, numbers, and hyphens" := by
          simp [validateUsernameErr, hsp, hnsp, he, hall]
        simp only [he, hbad, Bool.false_eq_true, ite_false]
        constructor
        · intro _
          obtain ⟨c, hc, hcf⟩ := List.all_eq_false.mp hall
          exact Or.inr ⟨c, hc, by revert hcf; cases isAllowedChar c <;> simp⟩
        · intro _
          exact ⟨"Username can only contain letters, numbers, and hyphens", rfl⟩

/-- Witness for C8: a subject with a disallowed character is rejected. -/
theorem submit_invalidInput_iff_witness :
    (∃ m, handleSubmit "octo_cat" = .error (.invalidInput m)) ↔
      (("octo_cat" : String).data = [] ∨
        ∃ c ∈ ("octo_cat" : String).data, isAllowedChar c = false) :=
  submit_invalidInput_iff "octo_cat" (by decide)

lemma cleanup_sets_guard (st : ClientState) :
    (cleanupConnection st).cleanupCalled = true := by
  unfold cleanupConnection
  by_cases h : st.cleanupCalled
  · simp [h]
  · simp [h]
    split <;> rfl

/-- C9: the client cleanup notification is idempotent: a call on a state
whose guard is already set changes nothing (and surfaces no error), and
invoking the cleanup any positive number of times has exactly the effect
of invoking it once — in particular at most one cleanup POST is ever
issued for a session identifier. -/
theorem cleanup_idempotent :
    (∀ st, st.cleanupCalled = true → cleanupConnection st = st) ∧
    (∀ st n, 1 ≤ n → cleanupConnection^[n] st = cleanupConnection st) := by
  have hfirst : ∀ st : ClientState, st.cleanupCalled = true → cleanupConnection st = st := by
    intro st h
    simp [cleanupConnection, h]
  refine ⟨hfirst, ?_⟩
  have hfix : ∀ st, cleanupConnection (cleanupConnection st) = cleanupConnection st :=
    fun st => hfirst _ (cleanup_sets_guard st)
  have key : ∀ n (st : ClientState),
      cleanupConnection^[n + 1] st = cleanupConnection st := by
    intro n
    induction n with
    | zero => intro st; simp
    | succ n ih =>
      intro st
      rw [Function.iterate_succ_apply, ih (cleanupConnection st), hfix]
  intro st n hn
  obtain ⟨m, rfl⟩ : ∃ m, n = m + 1 := ⟨n - 1, by omega⟩
  exact key m st

/-- A client state whose cleanup guard is already set. -/
def clientDone : ClientState :=
  { cleanupCalled := true, sessionId := "x", eventSourceOpen := false,
    cleanupRequests := ["x"] }

/-- A client state with an open stream and the guard not yet set. -/
def clientFresh : ClientState :=
  { cleanupCalled := false, sessionId := "abc", eventSourceOpen := true,
    cleanupRequests := [] }

/-- Witness for C9 at concrete client states. -/
theorem cleanup_idempotent_witness :
    cleanupConnection clientDone = clientDone ∧
    cleanupConnection^[3] clientFresh = cleanupConnection clientFresh :=
  ⟨cleanup_idempotent.1 clientDone rfl, cleanup_idempotent.2 clientFresh 3 (by decide)⟩

/-! ## Analysis of the URL pattern cascade in extractUsername -/

lemma ciAgree {p q l : List Char} (hp : startsWithCI p l = true)
    (hq : startsWithCI q l = true) (hle : p.length ≤ q.length) :
    q.take p.length = p := by
  unfold startsWithCI at hp hq
  rw [decide_eq_true_iff] at hp hq
  calc q.take p.length
      = ((l.take q.length).map lowerChar).take p.length := by rw [hq]
    _ = ((l.map lowerChar).take q.length).take p.length := by rw [List.map_take]
    _ = (l.map lowerChar).take (min p.length q.length) := by rw [List.take_take]
    _ = (l.map lowerChar).take p.length := by rw [Nat.min_eq_left hle]
    _ = (l.take p.length).map lowerChar := by rw [List.map_take]
    _ = p := hp

lemma dropWhile_head_false (p : Char → Bool) :
    ∀ (l : List Char) c r2, l.dropWhile p = c :: r2 → p c = false := by
  intro l
  induction l with
  | nil =>
    intro c r2 h
    simp [List.dropWhile] at h
  | cons a l ih =>
    intro c r2 h
    rw [List.dropWhile_cons] at h
    by_cases hp : p a = true
    · rw [if_pos hp] at h
      exact ih c r2 h
    · rw [if_neg hp] at h
      injection h with h1 _
      subst h1
      cases hpa : p a with
      | false => rfl
      | true => exact absurd hpa hp

lemma seg_decomp (p : Char → Bool) (l : List Char) :
    ∃ rest, l = l.takeWhile p ++ rest ∧ (∀ c ∈ l.takeWhile p, p c = true) ∧
      (rest = [] ∨ ∃ c r2, rest = c :: r2 ∧ p c = false) := by
  refine ⟨l.dropWhile p, (List.takeWhile_append_dropWhile p l).symm, ?_, ?_⟩
  · intro c hc
    exact List.mem_takeWhile_imp hc
  · cases hd : l.dropWhile p with
    | nil => exact Or.inl rfl
    | cons c r2 => exact Or.inr ⟨c, r2, rfl, dropWhile_head_false p l c r2 hd⟩

lemma firstSeg_decomp (pat l : List Char) :
    ∃ rest, l.drop pat.length = firstSegAfter pat l ++ rest ∧
      (∀ c ∈ firstSegAfter pat l, isAllowedChar c = true) ∧
      (rest = [] ∨ ∃ c r2, rest = c :: r2 ∧ isAllowedChar c = false) := by
  obtain ⟨rest, hr, h2, h3⟩ := seg_decomp isAllowedChar (l.drop pat.length)
  exact ⟨rest, hr, h2, h3⟩

lemma matchGithub_none_of_not {pat l : List Char}
    (h : startsWithCI pat l = false) : matchGithub pat l = none := by
  simp [matchGithub, h]

lemma matchGithub_none_of_claim {pat l : List Char}
    (h : ¬(startsWithCI pat l = true ∧ firstSegAfter pat l ≠ [])) :
    matchGithub pat l = none := by
  by_cases h1 : startsWithCI pat l = true
  · have h2 : firstSegAfter pat l = [] := by
      by_contra hc
      exact h ⟨h1, hc⟩
    simp [matchGithub, h1, h2]
  · have h1f : startsWithCI pat l = false := by
      cases hh : startsWithCI pat l with
      | false => rfl
      | true => exact absurd hh h1
    simp [matchGithub, h1f]

lemma matchGithub_some {pat l : List Char} (h1 : startsWithCI pat l = true)
    (h2 : firstSegAfter pat l ≠ []) :
    matchGithub pat l = some (firstSegAfter pat l) := by
  simp [matchGithub, h1, h2]

/-- C10 (amended): `extractUsername` returns the first path segment — the
maximal run of letters, digits and hyphens after the matched head, with
at least one such character present — whenever the trimmed input begins,
case-insensitively, with one of the four URL heads, and returns the
trimmed input unchanged for every other input (including a URL head
followed by no allowed character at all). -/
theorem extractUsername_url_or_verbatim (s : String) :
    ((∀ pat ∈ ghUrlPats, ¬(startsWithCI pat (trimL s.data) = true ∧
        firstSegAfter pat (trimL s.data) ≠ [])) →
      extractUsername s = String.mk (trimL s.data)) ∧
    (∀ pat ∈ ghUrlPats, startsWithCI pat (trimL s.data) = true →
      firstSegAfter pat (trimL s.data) ≠ [] →
      extractUsername s = String.mk (firstSegAfter pat (trimL s.data)) ∧
      ∃ rest, (trimL s.data).drop pat.length =
          firstSegAfter pat (trimL s.data) ++ rest ∧
        (∀ c ∈ firstSegAfter pat (trimL s.data), isAllowedChar c = true) ∧
        (rest = [] ∨ ∃ c r2, rest = c :: r2 ∧ isAllowedChar c = false)) := by
  constructor
  · intro h
    have e1 := matchGithub_none_of_claim (h patHttps (by simp [ghUrlPats]))
    have e2 := matchGithub_none_of_claim (h patHttp (by simp [ghUrlPats]))
    have e3 := matchGithub_none_of_claim (h patGh (by simp [ghUrlPats]))
    have e4 := matchGithub_none_of_claim (h patWww (by simp [ghUrlPats]))
    unfold extractUsername
    simp only [extractUsernameL, e1, e2, e3, e4]
  · intro pat hmem h1 h2
    simp only [ghUrlPats, List.mem_cons, List.mem_singleton,
      List.not_mem_nil, or_false] at hmem
    rcases hmem with rfl | rfl | rfl | rfl
    · have m1 := matchGithub_some h1 h2
      refine ⟨?_, firstSeg_decomp patHttps (trimL s.data)⟩
      unfold extractUsername
      simp only [extractUsernameL, m1]
    · have hHttpsF : startsWithCI patHttps (trimL s.data) = false := by
        cases hh : startsWithCI patHttps (trimL s.data) with
        | false => rfl
        | true => exact absurd (ciAgree h1 hh (by decide)) (by decide)
      have e1 := matchGithub_none_of_not hHttpsF
      have m2 := matchGithub_some h1 h2
      refine ⟨?_, firstSeg_decomp patHttp (trimL s.data)⟩
      unfold extractUsername
      simp only [extractUsernameL, e1, m2]
    · have hHttpsF : startsWithCI patHttps (trimL s.data) = false := by
        cases hh : startsWithCI patHttps (trimL s.data) with
        | false => rfl
        | true => exact absurd (ciAgree h1 hh (by decide)) (by decide)
      have hHttpF : startsWithCI patHttp (trimL s.data) = false := by
        cases hh : startsWithCI patHttp (trimL s.data) with
        | false => rfl
        | true => exact absurd (ciAgree h1 hh (by decide)) (by decide)
      have e1 := matchGithub_none_of_not hHttpsF
      have e2 := matchGithub_none_of_not hHttpF
      have m3 := matchGithub_some h1 h2
      refine ⟨?_, firstSeg_decomp patGh (trimL s.data)⟩
      unfold extractUsername
      simp only [extractUsernameL, e1, e2, m3]
    · have hHttpsF : startsWithCI patHttps (trimL s.data) = false := by
        cases hh : startsWithCI patHttps (trimL s.data) with
        | false => rfl
        | true => exact absurd (ciAgree h1 hh (by decide)) (by decide)
      have hHttpF : startsWithCI patHttp (trimL s.data) = false := by
        cases hh : startsWithCI patHttp (trimL s.data) with
        | false => rfl
        | true => exact absurd (ciAgree h1 hh (by decide)) (by decide)
      have hGhF : startsWithCI patGh (trimL s.data) = false := by
        cases hh : startsWithCI patGh (trimL s.data) with
        | false => rfl
        | true => exact absurd (ciAgree hh h1 (by decide)) (by decide)
      have e1 := matchGithub_none_of_not hHttpsF
      have e2 := matchGithub_none_of_not hHttpF
      have e3 := matchGithub_none_of_not hGhF
      have m4 := matchGithub_some h1 h2
      refine ⟨?_, firstSeg_decomp patWww (trimL s.data)⟩
      unfold extractUsername
      simp only [extractUsernameL, e1, e2, e3, m4]

/-- C10 counterexample: the input `github.com/` begins with the
`github.com/` URL head, yet its first path segment is empty, and
`extractUsername` returns the whole trimmed input rather than that
segment — so the unamended claim fails on it. -/
theorem extractUsername_bare_url_counterexample :
    startsWithCI patGh (trimL ("github.com/" : String).data) = true ∧
    firstSegAfter patGh (trimL ("github.com/" : String).data) = [] ∧
    extractUsername "github.com/" = "github.com/" ∧
    extractUsername "github.com/" ≠
      String.mk (firstSegAfter patGh (trimL ("github.com/" : String).data)) := by
  refine ⟨rfl, rfl, rfl, ?_⟩
  decide

/-- Witness for C10: a URL input yields its first path segment, a plain
username is returned unchanged. -/
theorem extractUsername_url_or_verbatim_witness :
    extractUsername "https://github.com/octocat" = "octocat" ∧
    extractUsername "hello" = "hello" := by
  constructor
  · have h := ((extractUsername_url_or_verbatim "https://github.com/octocat").2
      patHttps (by simp [ghUrlPats]) (by decide) (by decide)).1
    rw [h]
    decide
  · have h := (extractUsername_url_or_verbatim "hello").1 (by decide)
    rw [h]
    decide

/-! ## Every stored subject is whitespace-trimmed

The username state submitted by the component is always an
`extractUsername` output, and such outputs are fixed by trimming — this
grounds the trimmed-subject hypothesis of `submit_invalidInput_iff`. -/

lemma dropWhile_idem (p : Char → Bool) (l : List Char) :
    (l.dropWhile p).dropWhile p = l.dropWhile p := by
  cases hd : l.dropWhile p with
  | nil => rfl
  | cons c r =>
    have hc := dropWhile_head_false p l c r hd
    rw [List.dropWhile_cons, if_neg (by simp [hc])]

lemma trimL_idem (l : List Char) : trimL (trimL l) = trimL l := by
  unfold trimL
  generalize hA : l.dropWhile isJsWhitespace = A
  generalize hB : A.reverse.dropWhile isJsWhitespace = B
  have h1 : B.reverse.dropWhile isJsWhitespace = B.reverse := by
    cases hBr : B.reverse with
    | nil => rfl
    | cons c r =>
      have hsuf : B <:+ A.reverse := hB ▸ List.dropWhile_suffix isJsWhitespace
      obtain ⟨t1, ht1⟩ := hsuf
      have hAeq : A = c :: (r ++ t1.reverse) := by
        have hrev := congrArg List.reverse ht1
        simp only [List.reverse_append, List.reverse_reverse] at hrev
        rw [hBr] at hrev
        simpa using hrev.symm
      have hc : isJsWhitespace c = false := by
        apply dropWhile_head_false isJsWhitespace l c (r ++ t1.reverse)
        rw [hA]
        exact hAeq
      rw [List.dropWhile_cons, if_neg (by simp [hc])]
  rw [h1, List.reverse_reverse]
  have h2 : B.dropWhile isJsWhitespace = B := by
    rw [← hB]
    exact dropWhile_idem _ _
  rw [h2]

lemma allowed_not_ws {c : Char} (h : isAllowedChar c = true) :
    isJsWhitespace c = false := by
  cases hw : isJsWhitespace c with
  | false => rfl
  | true =>
    exfalso
    unfold isJsWhitespace at hw
    simp only [Bool.or_eq_true, Bool.and_eq_true, decide_eq_true_eq] at hw
    rcases hw with (((((((((((((hw | hw) | hw) | hw) | hw) | hw) | hw) | hw) |
      ⟨hw1, hw2⟩) | hw) | hw) | hw) | hw) | hw) | hw
    all_goals first
    | (subst hw; exact absurd h (by decide))
    | (unfold isAllowedChar at h
       simp only [Bool.or_eq_true, Bool.and_eq_true, decide_eq_true_eq] at h
       rcases h with ((⟨h1, h2⟩ | ⟨h1, h2⟩) | ⟨h1, h2⟩) | h1
       · exact absurd (le_trans hw1 h2) (by decide)
       · exact absurd (le_trans hw1 h2) (by decide)
       · exact absurd (le_trans hw1 h2) (by decide)
       · subst h1
         exact absurd hw1 (by decide))

lemma trimL_of_no_ws {l : List Char} (h : ∀ c ∈ l, isJsWhitespace c = false) :
    trimL l = l := by
  unfold trimL
  have h1 : l.dropWhile isJsWhitespace = l := by
    cases l with
    | nil => rfl
    | cons a t => rw [List.dropWhile_cons, if_neg (by simp [h a (by simp)])]
  rw [h1]
  have h2 : l.reverse.dropWhile isJsWhitespace = l.reverse := by
    cases hr : l.reverse with
    | nil => rfl
    | cons a t =>
      have ha : a ∈ l := by
        have hm : a ∈ l.reverse := by
          rw [hr]
          simp
        simpa using hm
      rw [List.dropWhile_cons, if_neg (by simp [h a ha])]
  rw [h2, List.reverse_reverse]

lemma matchGithub_some_inv {pat l seg : List Char}
    (h : matchGithub pat l = some seg) : seg = firstSegAfter pat l := by
  unfold matchGithub at h
  split at h
  · split at h
    · simp at h
    · simpa using h.symm
  · simp at h

lemma seg_trimmed {pat l seg : List Char} (h : matchGithub pat l = some seg) :
    trimL seg = seg := by
  rw [matchGithub_some_inv h]
  apply trimL_of_no_ws
  intro c hc
  exact allowed_not_ws (List.mem_takeWhile_imp hc)

/-- Whatever the raw input, the username the component stores — the
`extractUsername` output — is already whitespace-trimmed, so the trimmed
hypothesis of `submit_invalidInput_iff` holds for every subject the
submit gate can ever receive. -/
lemma extractUsernameL_trimmed (input : List Char) :
    trimL (extractUsernameL input) = extractUsernameL input := by
  unfold extractUsernameL
  cases m1 : matchGithub patHttps (trimL input) with
  | some seg =>
    simp only [m1]
    exact seg_trimmed m1
  | none =>
    simp only [m1]
    cases m2 : matchGithub patHttp (trimL input) with
    | some seg =>
      simp only [m2]
      exact seg_trimmed m2
    | none =>
      simp only [m2]
      cases m3 : matchGithub patGh (trimL input) with
      | some seg =>
        simp only [m3]
        exact seg_trimmed m3
      | none =>
        simp only [m3]
        cases m4 : matchGithub patWww (trimL input) with
        | some seg =>
          simp only [m4]
          exact seg_trimmed m4
        | none =>
          simp only [m4]
          exact trimL_idem input

end GRWM
